import Mathlib

/-!
Shallow embedding of `src/analysis.py` (the resolution-and-analysis pipeline):
PGN date normalization, game-identity resolution against the relational store,
per-ply engine scoring with mate clamping, ACPL/accuracy aggregation, and the
insert-or-update persistence of analysis rows.

Machine integers of the source are modelled as `Int`/`Nat`; the SQLite tables
are modelled as lists of typed rows; the external engine (python-chess +
Stockfish) is modelled as an oracle assigning to each ply index the observable
outcome of that ply's engine interactions.
-/

namespace ChessAnalysis

/-! ### Configuration constants (the "analysis knobs" of the source) -/

def MOVETIME_MS : Nat := 20

def SKIP_PLIES : Nat := 0

def MAX_PLIES : Option Nat := none

/-! ### Engine evaluations and `_score_cp_white`

`info["score"]` converted to White's point of view (`eval_.white()`):
either a centipawn value or a signed mate distance `m` (`m > 0`: forced mate
in White's favor, `m < 0`: forced mate in Black's favor). -/

inductive PovEval where
  | cp (c : Int)
  | mate (m : Int)
deriving DecidableEq

/-- `_score_cp_white`: mate scores are clamped to ±100000
(`100000 if mate_ply and mate_ply > 0 else -100000`, where Python truthiness
of `mate_ply` is `m ≠ 0`); centipawn scores pass through
(`eval_.white().score(mate_score=100000)` returns the raw cp value when the
score is not a mate). -/
def score_cp_white : PovEval → Int
  | .mate m => if m ≠ 0 ∧ 0 < m then 100000 else -100000
  | .cp c => c

/-! ### `parse_pgn_date_to_iso` -/

/-- Python `str.strip()`: drop leading and trailing whitespace. -/
def pyStrip (s : String) : String :=
  String.mk
    (((s.data.dropWhile Char.isWhitespace).reverse.dropWhile
      Char.isWhitespace).reverse)

/-- Python `s.startswith(p)`. -/
def pyStartsWith (s p : String) : Bool := p.data.isPrefixOf s.data

/-- Split a character list at every occurrence of `sep` (occurrences are
boundaries; empty fields are kept), the semantics of Python
`str.split(sep)` for a one-character separator. -/
def splitOnChar (sep : Char) : List Char → List (List Char)
  | [] => [[]]
  | c :: rest =>
    if c = sep then [] :: splitOnChar sep rest
    else
      match splitOnChar sep rest with
      | [] => [[c]]
      | h :: t => (c :: h) :: t

/-- Python `s.split(".")`. -/
def pySplitDot (s : String) : List String :=
  (splitOnChar '.' s.data).map String.mk

/-- Decimal value of a non-empty digit string, `none` on a non-digit. -/
def digitsValAux (acc : Nat) : List Char → Option Nat
  | [] => some acc
  | c :: rest =>
    if c.isDigit then digitsValAux (acc * 10 + (c.toNat - '0'.toNat)) rest
    else none

def digitsVal : List Char → Option Nat
  | [] => none
  | l => digitsValAux 0 l

/-- Model of Python `int(s)` on a string: an optional sign followed by
decimal digits; `none` when a `ValueError` would be raised (whitespace and
underscore forms of the Python literal syntax are not modelled). -/
def pyInt (s : String) : Option Int :=
  match s.data with
  | '-' :: rest => (digitsVal rest).map (fun n => -(n : Int))
  | '+' :: rest => (digitsVal rest).map (fun n => (n : Int))
  | l => (digitsVal l).map (fun n => (n : Int))

/-- Zero padding of Python's `f"{n:0wd}"` format specifier. -/
def pyPadZero (w : Nat) (n : Int) : String :=
  if n < 0 then
    let digits := toString (-n)
    "-" ++ String.mk (List.replicate (w - 1 - digits.length) '0') ++ digits
  else
    let digits := toString n
    String.mk (List.replicate (w - digits.length) '0') ++ digits

/-- The `f"{y:04d}-{m:02d}-{d:02d}"` format expression. -/
def fmtDate (y m d : Int) : String :=
  pyPadZero 4 y ++ "-" ++ pyPadZero 2 m ++ "-" ++ pyPadZero 2 d

/-- The `try` block of `parse_pgn_date_to_iso`, applied to `s.split(".")`:
`y = int(parts[0])`, `m = 1 if parts[1]=="??" else int(parts[1])`,
`d = 1 if parts[2]=="??" else int(parts[2])`; any `ValueError`/`IndexError`
is caught and yields `none`. -/
def parseDateParts (parts : List String) : Option String :=
  match parts with
  | p0 :: p1 :: p2 :: _ =>
    match pyInt p0 with
    | none => none
    | some y =>
      match (if p1 = "??" then some 1 else pyInt p1) with
      | none => none
      | some m =>
        match (if p2 = "??" then some 1 else pyInt p2) with
        | none => none
        | some d => some (fmtDate y m d)
  | _ => none

/-- `parse_pgn_date_to_iso`: `if not s or s.startswith("?"): return None`,
then the `try` block over `s.split(".")`. -/
def parse_pgn_date_to_iso (s : Option String) : Option String :=
  match s with
  | none => none
  | some str =>
    if str = "" ∨ pyStartsWith str "?" then none
    else parseDateParts (pySplitDot str)

/-! ### The relational store (tables `players`, `games`, `moves`) -/

structure PlayerRow where
  id : Nat
  name : String
deriving DecidableEq

structure GameRow where
  id : Nat
  white_id : Nat
  black_id : Nat
  result : String
  date : Option String
  ply_count : Nat
deriving DecidableEq

structure MoveRow where
  game_id : Nat
  ply : Nat
  uci : String
deriving DecidableEq

structure ChessDb where
  players : List PlayerRow
  games : List GameRow
  moves : List MoveRow
deriving DecidableEq

/-- `resolve_player_id`: `SELECT id FROM players WHERE name=?`, first row or
`None`.  Read-only: never inserts a player record. -/
def resolve_player_id (db : ChessDb) (name : String) : Option Nat :=
  (db.players.find? (fun p => p.name == name)).map (fun p => p.id)

/-- The tag dictionary `Dict[str, str]` of a PGN game. -/
def Tags := List (String × String)

/-- Python `tags.get(k)`. -/
def tagGet (tags : Tags) (k : String) : Option String :=
  (tags.find? (fun kv => kv.1 == k)).map (fun kv => kv.2)

/-- Python `x or default` for an optional string: `None` and `""` are falsy. -/
def pyOrStr (o : Option String) (dflt : String) : String :=
  match o with
  | none => dflt
  | some s => if s = "" then dflt else s

/-- `(tags.get("White") or "Unknown").strip()` -/
def tagWhite (tags : Tags) : String :=
  pyStrip (pyOrStr (tagGet tags "White") "Unknown")

/-- `(tags.get("Black") or "Unknown").strip()` -/
def tagBlack (tags : Tags) : String :=
  pyStrip (pyOrStr (tagGet tags "Black") "Unknown")

/-- `tags.get("Result") or "*"` -/
def tagResult (tags : Tags) : String := pyOrStr (tagGet tags "Result") "*"

/-- The candidate-key query of `resolve_game_id`: filter `games` on
(white_id, black_id, result, date, ply_count) and return the ids in
ascending order (`ORDER BY id`).  When the normalized date is absent the
date condition is `(date IS NULL OR date='')`; otherwise it is `date=?`
(SQL `NULL` never matches `=`). -/
def dateMatches (date_iso : Option String) (stored : Option String) : Bool :=
  match date_iso with
  | some d => stored == some d
  | none => stored == none || stored == some ""

def candidateIds (db : ChessDb) (w_id b_id : Nat) (res : String)
    (date_iso : Option String) (ply_count : Nat) : List Nat :=
  List.insertionSort (· ≤ ·)
    ((db.games.filter (fun g =>
      g.white_id == w_id && g.black_id == b_id && g.result == res &&
        dateMatches date_iso g.date && g.ply_count == ply_count)).map
      (fun g => g.id))

/-- `SELECT uci FROM moves WHERE game_id=? ORDER BY ply LIMIT k`. -/
def storedLeadMoves (db : ChessDb) (gid : Nat) (k : Nat) : List String :=
  (((db.moves.filter (fun mv => mv.game_id == gid)).insertionSort
      (fun a b => a.ply ≤ b.ply)).take k).map (fun mv => mv.uci)

/-- `resolve_game_id`: resolve the PGN header tags and move list to a stored
`games.id`.  `None` when a player is missing or no candidate matches the
candidate key; with several candidates, disambiguate by the first
`min(10, len(uci_moves))` moves and fall back to the lowest id.
Read-only with respect to the store. -/
def resolve_game_id (db : ChessDb) (tags : Tags) (uci_moves : List String) :
    Option Nat :=
  match resolve_player_id db (tagWhite tags),
      resolve_player_id db (tagBlack tags) with
  | some w_id, some b_id =>
    match candidateIds db w_id b_id (tagResult tags)
        (parse_pgn_date_to_iso (tagGet tags "Date")) uci_moves.length with
    | [] => none
    | [g] => some g
    | c0 :: c1 :: rest =>
      -- Disambiguate by first 10 UCIs (`probe = uci_moves[:10]`)
      match (c0 :: c1 :: rest).find? (fun gid =>
          storedLeadMoves db gid (uci_moves.take 10).length ==
            uci_moves.take 10) with
      | some gid => some gid
      | none => some c0  -- fallback: cands[0]
  | _, _ => none

/-! ### `_analyze_job`

The external engine and board library are modelled by an oracle
`Nat → PlyEvent` assigning to each 0-based ply index the observable outcome
of that ply's interactions inside the loop body: both `analyse` calls
succeeded and `push_uci` was legal (`scored`, carrying the two White-POV
evaluations), or `push_uci` raised (`illegal`), or one of the `analyse`
calls raised (`engineFail`, caught outside the loop, aborting the whole
loop).  `chess.Board.push` always flips the side to move, so the side to
move is modelled by a `Bool` (`true` = White) toggled at each ply. -/

inductive FailKind where
  | engineTerminated
  | engineError (msg : String)
  | otherExc (msg : String)
deriving DecidableEq

inductive PlyEvent where
  | scored (best after : PovEval)
  | illegal
  | engineFail (k : FailKind)
deriving DecidableEq

/-- Whether the oracle reports a fully scored ply (both engine calls
succeeded and the recorded move was legal). -/
def PlyEvent.isScoredEv : PlyEvent → Bool
  | .scored _ _ => true
  | .illegal => false
  | .engineFail _ => false

/-- A White-POV score re-expressed from the perspective of the side that is
about to move (`true` = White). -/
def moverView (stm_is_white : Bool) (s : Int) : Int :=
  if stm_is_white then s else -s

/-- The note appended by the `except` clauses of `_analyze_job`. -/
def failNote : FailKind → String
  | .engineTerminated => "engine terminated"
  | .engineError msg => "engine error: " ++ msg
  | .otherExc msg => "exception: " ++ msg

/-- The quantity added to the mover's accumulator for one scored ply:
`s_best_stm` and `s_after_mover` are the two evaluations re-expressed from
the mover's perspective, `loss = max(0, s_best_stm - s_after_mover)` and the
code adds `abs(loss)`.  After `push` the side to move is the negation of
`stm_is_white`, hence `s_after_stm`'s conditional. -/
def plyLoss (stm_is_white : Bool) (best after : PovEval) : Int :=
  let s_best_white := score_cp_white best
  let s_best_stm := if stm_is_white then s_best_white else -s_best_white
  let s_played_white := score_cp_white after
  let s_after_stm := if !stm_is_white then s_played_white else -s_played_white
  let s_after_mover := -s_after_stm
  |max 0 (s_best_stm - s_after_mover)|

/-- The mutable accumulators of `_analyze_job`'s loop: `n_w`, `n_b`,
`acpl_w`, `acpl_b` (sums before division) and the note list (at most one
note is ever appended, each appending branch breaks the loop, so an
`Option String` suffices and directly models the final
`"; ".join(notes) if notes else None`). -/
structure LoopState where
  nW : Nat
  nB : Nat
  accW : Int
  accB : Int
  note : Option String
deriving DecidableEq

/-- `if MAX_PLIES and ply_idx > MAX_PLIES: break` (Python truthiness:
`None` and `0` are falsy). -/
def maxPliesReached (ply_idx : Nat) : Bool :=
  match MAX_PLIES with
  | some mp => decide (mp ≠ 0) && decide (mp < ply_idx)
  | none => false

/-- The `for u in job.uci_moves` loop of `_analyze_job`.  `i` is the 0-based
index (`ply_idx = i + 1`), `turn` the side to move of the current board. -/
def analyzeLoop (oracle : Nat → PlyEvent) :
    List String → Nat → Bool → LoopState → LoopState
  | [], _, _, st => st
  | u :: rest, i, turn, st =>
    let ply_idx := i + 1
    if SKIP_PLIES ≠ 0 ∧ ply_idx ≤ SKIP_PLIES then
      -- skip branch: only `board.push_uci(u)` runs; an illegal move notes
      -- and breaks, otherwise continue without scoring
      match oracle i with
      | .illegal =>
        { st with note := some ("illegal at ply " ++ toString ply_idx) }
      | _ => analyzeLoop oracle rest (i + 1) (!turn) st
    else if maxPliesReached ply_idx then st
    else
      match oracle i with
      | .engineFail k => { st with note := some (failNote k) }
      | .illegal =>
        let msg := "illegal move " ++ u ++ " at ply " ++ toString ply_idx
        { st with note := some msg }
      | .scored best after =>
        let stm_is_white := turn
        let loss := plyLoss stm_is_white best after
        let st' :=
          if stm_is_white then
            { st with accW := st.accW + loss, nW := st.nW + 1 }
          else
            { st with accB := st.accB + loss, nB := st.nB + 1 }
        analyzeLoop oracle rest (i + 1) (!turn) st'

/-- `_acpl_to_accuracy`: `max(0.0, 100.0 - 0.5 * math.sqrt(max(0.0, acpl)))`. -/
noncomputable def acpl_to_accuracy (acpl : ℝ) : ℝ :=
  max 0 (100 - 0.5 * Real.sqrt (max 0 acpl))

/-- An analysis job: resolved game id, initial FEN and move list
(the header tags carried by the Python dataclass play no role in
`_analyze_job` and are omitted). -/
structure Job where
  game_id : Nat
  initial_fen : String
  uci_moves : List String

/-- One row of the `analysis` table — the tuple returned by `_analyze_job`
and upserted by `upsert_analysis_batch`.  `REAL` columns are reals; the two
ACPL averages are exact rationals (integer sum over integer count).
`ms_total` is wall-clock time, outside the model, fixed at 0. -/
structure AnalysisRow where
  game_id : Nat
  plies_analyzed : Nat
  acpl_white : ℚ
  acpl_black : ℚ
  accuracy_white : ℝ
  accuracy_black : ℝ
  ms_total : Nat
  engine : String
  movetime_ms : Nat
  skipped_plies : Nat
  notes : Option String

/-- `chess.Board(job.initial_fen)` is external; its outcome is passed as an
`Except`: `.error e` when construction raised with message `e`, `.ok turn`
for a successfully built board whose side to move is `turn`. -/
noncomputable def analyze_job (job : Job) (fen : Except String Bool)
    (oracle : Nat → PlyEvent) : AnalysisRow :=
  match fen with
  | .error e =>
    { game_id := job.game_id, plies_analyzed := 0,
      acpl_white := 0, acpl_black := 0,
      accuracy_white := 100, accuracy_black := 100,
      ms_total := 0, engine := "Stockfish", movetime_ms := MOVETIME_MS,
      skipped_plies := SKIP_PLIES, notes := some ("bad FEN: " ++ e) }
  | .ok turn =>
    let st := analyzeLoop oracle job.uci_moves 0 turn
      { nW := 0, nB := 0, accW := 0, accB := 0, note := none }
    let acpl_w : ℚ := (st.accW : ℚ) / ((max 1 st.nW : Nat) : ℚ)
    let acpl_b : ℚ := (st.accB : ℚ) / ((max 1 st.nB : Nat) : ℚ)
    { game_id := job.game_id, plies_analyzed := st.nW + st.nB,
      acpl_white := acpl_w, acpl_black := acpl_b,
      accuracy_white := acpl_to_accuracy (acpl_w : ℝ),
      accuracy_black := acpl_to_accuracy (acpl_b : ℝ),
      ms_total := 0, engine := "Stockfish", movetime_ms := MOVETIME_MS,
      skipped_plies := SKIP_PLIES, notes := st.note }

/-! ### `upsert_analysis_batch` (the `analysis` table) -/

/-- The `ON CONFLICT(game_id) DO UPDATE SET` clause: every column other than
the key is taken from the excluded (new) row. -/
def updateOnConflict (old new : AnalysisRow) : AnalysisRow :=
  { game_id := old.game_id,
    plies_analyzed := new.plies_analyzed,
    acpl_white := new.acpl_white, acpl_black := new.acpl_black,
    accuracy_white := new.accuracy_white, accuracy_black := new.accuracy_black,
    ms_total := new.ms_total, engine := new.engine,
    movetime_ms := new.movetime_ms, skipped_plies := new.skipped_plies,
    notes := new.notes }

/-- One `INSERT ... ON CONFLICT(game_id) DO UPDATE` statement against the
`analysis` table (`game_id INTEGER PRIMARY KEY`): update the existing row
for the key if present, else append the new row. -/
def upsertAnalysisRow (tbl : List AnalysisRow) (r : AnalysisRow) :
    List AnalysisRow :=
  if tbl.any (fun x => x.game_id == r.game_id) then
    tbl.map (fun x => if x.game_id == r.game_id then updateOnConflict x r else x)
  else tbl ++ [r]

/-- `upsert_analysis_batch`: `executemany` of the upsert over a batch. -/
def upsert_analysis_batch (tbl : List AnalysisRow) (rows : List AnalysisRow) :
    List AnalysisRow :=
  rows.foldl upsertAnalysisRow tbl

/-! ## Helper lemmas -/

theorem acpl_to_accuracy_zero : acpl_to_accuracy 0 = 100 := by
  simp [acpl_to_accuracy]

theorem acpl_to_accuracy_nonneg (a : ℝ) : 0 ≤ acpl_to_accuracy a :=
  le_max_left _ _

theorem acpl_to_accuracy_le_hundred (a : ℝ) : acpl_to_accuracy a ≤ 100 := by
  unfold acpl_to_accuracy
  have hs : 0 ≤ Real.sqrt (max 0 a) := Real.sqrt_nonneg _
  have : (100 : ℝ) - 0.5 * Real.sqrt (max 0 a) ≤ 100 := by nlinarith
  exact max_le (by norm_num) this

theorem acpl_to_accuracy_antitone {a b : ℝ} (h : a ≤ b) :
    acpl_to_accuracy b ≤ acpl_to_accuracy a := by
  unfold acpl_to_accuracy
  have hs : Real.sqrt (max 0 a) ≤ Real.sqrt (max 0 b) :=
    Real.sqrt_le_sqrt (max_le_max le_rfl h)
  have : (100 : ℝ) - 0.5 * Real.sqrt (max 0 b) ≤ 100 - 0.5 * Real.sqrt (max 0 a) := by
    nlinarith
  exact max_le_max le_rfl this

/-! ## C3 -/

/-- C3: for every non-negative average-centipawn-loss input, the accuracy
mapping `max(0, 100 − 0.5 × sqrt(max(0, acpl)))` lies in `[0, 100]`, equals
`100` at `acpl = 0`, and is monotone non-increasing in `acpl`. -/
theorem accuracy_mapping_bounds (acpl : ℝ) (h : 0 ≤ acpl) :
    0 ≤ acpl_to_accuracy acpl ∧ acpl_to_accuracy acpl ≤ 100 ∧
    acpl_to_accuracy 0 = 100 ∧
    ∀ b : ℝ, acpl ≤ b → acpl_to_accuracy b ≤ acpl_to_accuracy acpl :=
  ⟨acpl_to_accuracy_nonneg acpl, acpl_to_accuracy_le_hundred acpl,
    acpl_to_accuracy_zero, fun _ hb => acpl_to_accuracy_antitone hb⟩

theorem accuracy_mapping_bounds_witness :
    0 ≤ acpl_to_accuracy 4 ∧ acpl_to_accuracy 9 ≤ acpl_to_accuracy 4 := by
  have h := accuracy_mapping_bounds 4 (by norm_num)
  exact ⟨h.1, h.2.2.2 9 (by norm_num)⟩

/-! ## C4 -/

/-- C4: a forced-mate evaluation is clamped to exactly `+100000` when the
mate is in White's favor (`0 < m`) and `−100000` otherwise, never a raw
ply-count-derived value; after mover-perspective sign normalization
(`s if stm_is_white else -s`), a mate for the side to move yields `+100000`
and a mate against it yields `−100000`. -/
theorem mate_score_clamping (m : Int) (hm : m ≠ 0) :
    (0 < m → score_cp_white (.mate m) = 100000) ∧
    (m < 0 → score_cp_white (.mate m) = -100000) ∧
    (score_cp_white (.mate m) = 100000 ∨ score_cp_white (.mate m) = -100000) ∧
    (∀ stm : Bool, ((stm = true ∧ 0 < m) ∨ (stm = false ∧ m < 0)) →
      moverView stm (score_cp_white (.mate m)) = 100000) ∧
    (∀ stm : Bool, ((stm = true ∧ m < 0) ∨ (stm = false ∧ 0 < m)) →
      moverView stm (score_cp_white (.mate m)) = -100000) := by
  unfold score_cp_white moverView
  refine ⟨fun h => by simp [hm, h], fun h => ?_, ?_, ?_, ?_⟩
  · have : ¬(m ≠ 0 ∧ 0 < m) := by omega
    simp [this]
  · by_cases h : m ≠ 0 ∧ 0 < m <;> simp [h]
  · rintro stm (⟨rfl, h⟩ | ⟨rfl, h⟩)
    · simp [hm, h]
    · have : ¬(m ≠ 0 ∧ 0 < m) := by omega
      simp [this]
  · rintro stm (⟨rfl, h⟩ | ⟨rfl, h⟩)
    · have : ¬(m ≠ 0 ∧ 0 < m) := by omega
      simp [this]
    · simp [hm, h]

theorem mate_score_clamping_witness :
    score_cp_white (.mate 3) = 100000 ∧
    moverView false (score_cp_white (.mate 3)) = -100000 := by
  have h := mate_score_clamping 3 (by norm_num)
  exact ⟨h.1 (by norm_num), h.2.2.2.2 false (Or.inr ⟨rfl, by norm_num⟩)⟩

/-! ## C2 -/

/-- C2: with `best` the pre-move evaluation from the mover's perspective and
`after` the post-move evaluation re-expressed in the same mover's perspective
by sign-flipping, the per-ply loss added to that side's accumulator equals
`max(0, best − after)`, is never negative, and is zero for a move that does
not worsen the mover's position. -/
theorem per_ply_loss_formula (stm : Bool) (best after : PovEval) :
    plyLoss stm best after =
      max 0 (moverView stm (score_cp_white best) -
        moverView stm (score_cp_white after)) ∧
    0 ≤ plyLoss stm best after ∧
    (moverView stm (score_cp_white best) ≤
        moverView stm (score_cp_white after) →
      plyLoss stm best after = 0) ∧
    (∀ (oracle : Nat → PlyEvent) (i : Nat) (u : String) (st : LoopState),
      oracle i = .scored best after →
        (analyzeLoop oracle [u] i true st).accW =
            st.accW + plyLoss true best after ∧
          (analyzeLoop oracle [u] i false st).accB =
            st.accB + plyLoss false best after) := by
  have key : plyLoss stm best after =
      max 0 (moverView stm (score_cp_white best) -
        moverView stm (score_cp_white after)) := by
    unfold plyLoss moverView
    cases stm <;> simp <;> rw [abs_of_nonneg (le_max_left _ _)] <;> ring_nf
  refine ⟨key, ?_, ?_, ?_⟩
  · rw [key]; exact le_max_left _ _
  · intro h
    rw [key, max_eq_left (by omega)]
  · intro oracle i u st h
    constructor <;>
      simp [analyzeLoop, SKIP_PLIES, maxPliesReached, MAX_PLIES, h]

theorem per_ply_loss_formula_witness :
    plyLoss true (.cp 3) (.cp 7) = 0 ∧ 0 ≤ plyLoss false (.cp 9) (.cp 2) := by
  have h1 := per_ply_loss_formula true (.cp 3) (.cp 7)
  have h2 := per_ply_loss_formula false (.cp 9) (.cp 2)
  exact ⟨h1.2.2.1 (by norm_num [moverView, score_cp_white]), h2.2.1⟩

/-! ## C10 -/

/-- C10: a job whose initial position string fails to construct a board
returns normally with zero plies analyzed, ACPL 0 for both sides, accuracy
100 for both sides, and a non-null note beginning `"bad FEN"`. -/
theorem bad_fen_result (job : Job) (e : String) (oracle : Nat → PlyEvent) :
    (analyze_job job (.error e) oracle).plies_analyzed = 0 ∧
    (analyze_job job (.error e) oracle).acpl_white = 0 ∧
    (analyze_job job (.error e) oracle).acpl_black = 0 ∧
    (analyze_job job (.error e) oracle).accuracy_white = 100 ∧
    (analyze_job job (.error e) oracle).accuracy_black = 100 ∧
    ∃ t, (analyze_job job (.error e) oracle).notes = some ("bad FEN" ++ t) := by
  refine ⟨rfl, rfl, rfl, rfl, rfl, ⟨": " ++ e, ?_⟩⟩
  show some ("bad FEN: " ++ e) = some ("bad FEN" ++ (": " ++ e))
  rw [← String.append_assoc]
  rfl

/-! ## C9 -/

/-- C9: when the white or the black player name is absent from the player
registry, `resolve_game_id` returns `None` (NotFound); being a pure function
of the store it neither raises nor creates player records. -/
theorem resolver_missing_player (db : ChessDb) (tags : Tags)
    (uci_moves : List String)
    (h : resolve_player_id db (tagWhite tags) = none ∨
      resolve_player_id db (tagBlack tags) = none) :
    resolve_game_id db tags uci_moves = none := by
  unfold resolve_game_id
  rcases h with h | h
  · simp [h]
  · cases hw : resolve_player_id db (tagWhite tags) <;> simp [h, hw]

theorem resolver_missing_player_witness :
    resolve_game_id ⟨[], [], []⟩ [("White", "A"), ("Black", "B")] ["e2e4"] =
      none := by
  exact resolver_missing_player ⟨[], [], []⟩ [("White", "A"), ("Black", "B")]
    ["e2e4"] (Or.inl rfl)

/-! ## C8 -/

/-- C8: date normalization maps month/day wildcards `"??"` to 1, maps a fully
unknown (leading `"?"`) or unparseable date to `None` (it is a total
function, so it never raises), and when the normalized date is `None` the
candidate query matches stored games whose date is null or the empty string
rather than using a null-equality comparison. -/
theorem date_normalization :
    (∀ p0 p2 y d, pyInt p0 = some y → pyInt p2 = some d →
      parseDateParts [p0, "??", p2] = some (fmtDate y 1 d)) ∧
    (∀ p0 p1 y m, pyInt p0 = some y → pyInt p1 = some m → p1 ≠ "??" →
      parseDateParts [p0, p1, "??"] = some (fmtDate y m 1)) ∧
    (∀ s, pyStartsWith s "?" = true → parse_pgn_date_to_iso (some s) = none) ∧
    (∀ p0 p1 p2 rest, pyInt p0 = none →
      parseDateParts (p0 :: p1 :: p2 :: rest) = none) ∧
    (∀ p0 p1 p2 rest y, pyInt p0 = some y → pyInt p1 = none → p1 ≠ "??" →
      parseDateParts (p0 :: p1 :: p2 :: rest) = none) ∧
    (∀ parts, parts.length < 3 → parseDateParts parts = none) ∧
    parse_pgn_date_to_iso none = none ∧
    parse_pgn_date_to_iso (some "") = none ∧
    (∀ db w_id b_id res n gid,
      gid ∈ candidateIds db w_id b_id res none n ↔
        ∃ g ∈ db.games, g.id = gid ∧ g.white_id = w_id ∧ g.black_id = b_id ∧
          g.result = res ∧ (g.date = none ∨ g.date = some "") ∧
          g.ply_count = n) := by
  refine ⟨?_, ?_, ?_, ?_, ?_, ?_, rfl, rfl, ?_⟩
  · intro p0 p2 y d h0 h2
    rcases eq_or_ne p2 "??" with rfl | hne
    · rw [show pyInt "??" = none from rfl] at h2
      cases h2
    · simp [parseDateParts, h0, h2, hne]
  · intro p0 p1 y m h0 h1 hne
    simp [parseDateParts, h0, h1, hne]
  · intro s hs
    simp [parse_pgn_date_to_iso, hs]
  · intro p0 p1 p2 rest h0
    simp [parseDateParts, h0]
  · intro p0 p1 p2 rest y h0 h1 hne
    simp [parseDateParts, h0, h1, hne]
  · intro parts hlen
    rcases parts with _ | ⟨p0, _ | ⟨p1, _ | ⟨p2, rest⟩⟩⟩
    · rfl
    · rfl
    · rfl
    · exfalso
      simp at hlen
      omega
  · intro db w_id b_id res n gid
    unfold candidateIds
    rw [List.mem_insertionSort]
    simp only [List.mem_map, List.mem_filter, dateMatches, Bool.and_eq_true,
      Bool.or_eq_true, beq_iff_eq, decide_eq_true_eq]
    constructor
    · rintro ⟨g, ⟨hg, ⟨⟨⟨⟨hwid, hbid⟩, hres⟩, hdate⟩, hply⟩⟩, rfl⟩
      exact ⟨g, hg, rfl, hwid, hbid, hres, hdate, hply⟩
    · rintro ⟨g, hg, rfl, hwid, hbid, hres, hdate, hply⟩
      exact ⟨g, ⟨hg, ⟨⟨⟨⟨hwid, hbid⟩, hres⟩, hdate⟩, hply⟩⟩, rfl⟩

theorem date_normalization_witness :
    parseDateParts ["2020", "??", "05"] = some (fmtDate 2020 1 5) ∧
    parse_pgn_date_to_iso (some "????.??.??") = none := by
  have h := date_normalization
  exact ⟨h.1 "2020" "05" 2020 5 (by decide) (by decide),
    h.2.2.1 "????.??.??" (by decide)⟩

/-! ## C7 -/

theorem updateOnConflict_eq_of_key {x r : AnalysisRow}
    (h : x.game_id = r.game_id) : updateOnConflict x r = r := by
  cases r
  simp only [updateOnConflict]
  simp_all

theorem upsert_filter_length (tbl : List AnalysisRow) (r : AnalysisRow)
    (hinv : (tbl.filter (fun x => x.game_id == r.game_id)).length ≤ 1) :
    ((upsertAnalysisRow tbl r).filter
      (fun x => x.game_id == r.game_id)).length = 1 := by
  unfold upsertAnalysisRow
  by_cases hany : tbl.any (fun x => x.game_id == r.game_id)
  · rw [if_pos hany]
    have hmapped : (tbl.map
        (fun x => if x.game_id == r.game_id then updateOnConflict x r else x)).filter
          (fun x => x.game_id == r.game_id) =
        (tbl.filter (fun x => x.game_id == r.game_id)).map
          (fun x => if x.game_id == r.game_id then updateOnConflict x r else x) := by
      rw [List.filter_map]
      congr 1
      apply List.filter_congr
      intro x _
      by_cases hx : x.game_id = r.game_id
      · simp [hx, updateOnConflict]
      · simp [hx]
    rw [hmapped, List.length_map]
    rcases List.any_eq_true.mp hany with ⟨x, hx, hpx⟩
    have hmem : x ∈ tbl.filter (fun y => y.game_id == r.game_id) :=
      List.mem_filter.mpr ⟨hx, hpx⟩
    have hpos : 0 < (tbl.filter (fun y => y.game_id == r.game_id)).length :=
      List.length_pos.mpr (List.ne_nil_of_mem hmem)
    omega
  · rw [if_neg hany, List.filter_append]
    have hnil : tbl.filter (fun x => x.game_id == r.game_id) = [] := by
      rw [List.filter_eq_nil_iff]
      intro x hx hpx
      exact hany (List.any_eq_true.mpr ⟨x, hx, hpx⟩)
    simp [hnil]

/-- C7: upserting two Analysis Result rows sharing a game identity into a
store holding at most one row for that identity leaves exactly one row for
it, equal to the second write's values (full overwrite, never averaging or
appending), and upserting the same row twice is idempotent. -/
theorem upsert_overwrite_idempotent (tbl : List AnalysisRow)
    (r1 r2 : AnalysisRow) (hkey : r1.game_id = r2.game_id)
    (hinv : (tbl.filter (fun x => x.game_id == r2.game_id)).length ≤ 1) :
    ((upsertAnalysisRow (upsertAnalysisRow tbl r1) r2).filter
      (fun x => x.game_id == r2.game_id)).length = 1 ∧
    (∀ x ∈ upsertAnalysisRow (upsertAnalysisRow tbl r1) r2,
      x.game_id = r2.game_id → x = r2) ∧
    (∀ (t : List AnalysisRow) (r : AnalysisRow),
      upsertAnalysisRow (upsertAnalysisRow t r) r = upsertAnalysisRow t r) := by
  have idem : ∀ (t : List AnalysisRow) (r : AnalysisRow),
      upsertAnalysisRow (upsertAnalysisRow t r) r = upsertAnalysisRow t r := by
    intro t r
    unfold upsertAnalysisRow
    by_cases h : t.any (fun x => x.game_id == r.game_id)
    · rw [if_pos h]
      have hany2 : (t.map (fun x =>
          if x.game_id == r.game_id then updateOnConflict x r else x)).any
            (fun x => x.game_id == r.game_id) = true := by
        rcases List.any_eq_true.mp h with ⟨x, hx, hpx⟩
        refine List.any_eq_true.mpr ⟨if x.game_id == r.game_id
          then updateOnConflict x r else x, List.mem_map_of_mem _ hx, ?_⟩
        rw [if_pos hpx]
        simpa [updateOnConflict] using hpx
      rw [if_pos hany2, List.map_map]
      apply List.map_congr_left
      intro x _
      by_cases hx : x.game_id = r.game_id
      · simp [Function.comp, hx, updateOnConflict]
      · simp [Function.comp, hx]
    · rw [if_neg h]
      have hany2 : (t ++ [r]).any (fun x => x.game_id == r.game_id) = true :=
        List.any_eq_true.mpr ⟨r, ⟨by simp, by simp⟩⟩
      rw [if_pos hany2, List.map_append]
      have ht : t.map (fun x =>
          if x.game_id == r.game_id then updateOnConflict x r else x) = t := by
        have hcongr : ∀ x ∈ t,
            (if x.game_id == r.game_id then updateOnConflict x r else x) =
              id x := by
          intro x hx
          have hnx : (x.game_id == r.game_id) = false := by
            by_contra hc
            exact h (List.any_eq_true.mpr ⟨x, hx,
              by simpa using Bool.eq_true_of_ne_false hc⟩)
          rw [if_neg (by simp [hnx])]
          rfl
        rw [List.map_congr_left hcongr, List.map_id]
      rw [ht]
      have : updateOnConflict r r = r := updateOnConflict_eq_of_key rfl
      simp [this]
  have h1 : ((upsertAnalysisRow tbl r1).filter
      (fun x => x.game_id == r1.game_id)).length = 1 :=
    upsert_filter_length tbl r1 (by rw [hkey]; exact hinv)
  have h1' : ((upsertAnalysisRow tbl r1).filter
      (fun x => x.game_id == r2.game_id)).length = 1 := by
    rw [← hkey]; exact h1
  refine ⟨upsert_filter_length _ r2 (le_of_eq h1'), ?_, idem⟩
  · intro x hx hxid
    have hany : (upsertAnalysisRow tbl r1).any
        (fun y => y.game_id == r2.game_id) = true := by
      have hne : (upsertAnalysisRow tbl r1).filter
          (fun y => y.game_id == r2.game_id) ≠ [] := by
        intro hnil
        rw [hnil] at h1'
        cases h1'
      rcases List.exists_mem_of_ne_nil _ hne with ⟨y, hy⟩
      exact List.any_eq_true.mpr ⟨y, (List.mem_filter.mp hy).1,
        (List.mem_filter.mp hy).2⟩
    rw [upsertAnalysisRow, if_pos hany] at hx
    rcases List.mem_map.mp hx with ⟨y, hy, rfl⟩
    by_cases hyid : y.game_id = r2.game_id
    · rw [if_pos (by simpa using hyid)]
      exact updateOnConflict_eq_of_key hyid
    · rw [if_neg (by simpa using hyid)] at hxid ⊢
      exact absurd hxid hyid

theorem upsert_overwrite_idempotent_witness :
    ((upsertAnalysisRow (upsertAnalysisRow []
        ⟨5, 10, 3, 4, 90, 80, 7, "Stockfish", 20, 0, none⟩)
        ⟨5, 12, 1, 2, 95, 85, 9, "Stockfish", 20, 0, some "n"⟩).filter
      (fun x => x.game_id ==
        (⟨5, 12, 1, 2, 95, 85, 9, "Stockfish", 20, 0, some "n"⟩ :
          AnalysisRow).game_id)).length = 1 := by
  have h := upsert_overwrite_idempotent []
    ⟨5, 10, 3, 4, 90, 80, 7, "Stockfish", 20, 0, none⟩
    ⟨5, 12, 1, 2, 95, 85, 9, "Stockfish", 20, 0, some "n"⟩ rfl
    (by simp)
  exact h.1

/-! ## C5 -/

/-- One unfolding step of the loop at a cons cell: with `SKIP_PLIES = 0` and
`MAX_PLIES = None` neither guard fires, so the step is decided by the
oracle's outcome for ply index `i`. -/
theorem analyzeLoop_cons (oracle : Nat → PlyEvent) (u : String)
    (rest : List String) (i : Nat) (turn : Bool) (st : LoopState) :
    analyzeLoop oracle (u :: rest) i turn st =
      match oracle i with
      | .engineFail k => { st with note := some (failNote k) }
      | .illegal =>
        let msg := "illegal move " ++ u ++ " at ply " ++ toString (i + 1)
        { st with note := some msg }
      | .scored best after =>
        analyzeLoop oracle rest (i + 1) (!turn)
          (cond turn
            { st with accW := st.accW + plyLoss turn best after, nW := st.nW + 1 }
            { st with accB := st.accB + plyLoss turn best after, nB := st.nB + 1 }) := by
  cases turn <;>
    simp only [analyzeLoop, SKIP_PLIES, maxPliesReached, MAX_PLIES] <;>
    norm_num

/-- Loop invariant: the ply counters never decrease, and a side's loss
accumulator changes only together with that side's ply counter. -/
theorem analyzeLoop_stable (oracle : Nat → PlyEvent) (moves : List String) :
    ∀ (i : Nat) (turn : Bool) (st : LoopState),
      st.nW ≤ (analyzeLoop oracle moves i turn st).nW ∧
      st.nB ≤ (analyzeLoop oracle moves i turn st).nB ∧
      ((analyzeLoop oracle moves i turn st).nW = st.nW →
        (analyzeLoop oracle moves i turn st).accW = st.accW) ∧
      ((analyzeLoop oracle moves i turn st).nB = st.nB →
        (analyzeLoop oracle moves i turn st).accB = st.accB) := by
  induction moves with
  | nil => intro i turn st; simp [analyzeLoop]
  | cons u rest ih =>
    intro i turn st
    rw [analyzeLoop_cons]
    cases hor : oracle i with
    | scored b a =>
      cases turn with
      | true =>
        simp only [Bool.cond_true, Bool.not_true]
        rcases ih (i + 1) false
          { st with accW := st.accW + plyLoss true b a, nW := st.nW + 1 } with
          ⟨h1, h2, h3, h4⟩
        simp only at h1 h2 h3 h4
        exact ⟨Nat.le_trans (Nat.le_succ _) h1, h2,
          fun he => absurd he (by omega), fun he => h4 he⟩
      | false =>
        simp only [Bool.cond_false, Bool.not_false]
        rcases ih (i + 1) true
          { st with accB := st.accB + plyLoss false b a, nB := st.nB + 1 } with
          ⟨h1, h2, h3, h4⟩
        simp only at h1 h2 h3 h4
        exact ⟨h1, Nat.le_trans (Nat.le_succ _) h2,
          fun he => h3 he, fun he => absurd he (by omega)⟩
    | illegal => simp
    | engineFail k => simp

/-- C5: a job in which zero plies were evaluated for one side reports
average-centipawn-loss 0 and accuracy 100 for that side, independently of
how many plies the other side had evaluated (the guarded denominator
`max(1, n)` prevents any division error). -/
theorem empty_side_defaults (job : Job) (turn : Bool)
    (oracle : Nat → PlyEvent) :
    ((analyzeLoop oracle job.uci_moves 0 turn ⟨0, 0, 0, 0, none⟩).nW = 0 →
      (analyze_job job (.ok turn) oracle).acpl_white = 0 ∧
      (analyze_job job (.ok turn) oracle).accuracy_white = 100) ∧
    ((analyzeLoop oracle job.uci_moves 0 turn ⟨0, 0, 0, 0, none⟩).nB = 0 →
      (analyze_job job (.ok turn) oracle).acpl_black = 0 ∧
      (analyze_job job (.ok turn) oracle).accuracy_black = 100) := by
  rcases analyzeLoop_stable oracle job.uci_moves 0 turn ⟨0, 0, 0, 0, none⟩ with
    ⟨-, -, h3, h4⟩
  constructor
  · intro hW
    have haccW : (analyzeLoop oracle job.uci_moves 0 turn
        ⟨0, 0, 0, 0, none⟩).accW = 0 := h3 hW
    constructor
    · show ((analyzeLoop oracle job.uci_moves 0 turn
          ⟨0, 0, 0, 0, none⟩).accW : ℚ) / _ = 0
      rw [haccW]
      simp
    · show acpl_to_accuracy (((analyzeLoop oracle job.uci_moves 0 turn
          ⟨0, 0, 0, 0, none⟩).accW : ℚ) / _ : ℚ) = 100
      rw [haccW]
      simpa using acpl_to_accuracy_zero
  · intro hB
    have haccB : (analyzeLoop oracle job.uci_moves 0 turn
        ⟨0, 0, 0, 0, none⟩).accB = 0 := h4 hB
    constructor
    · show ((analyzeLoop oracle job.uci_moves 0 turn
          ⟨0, 0, 0, 0, none⟩).accB : ℚ) / _ = 0
      rw [haccB]
      simp
    · show acpl_to_accuracy (((analyzeLoop oracle job.uci_moves 0 turn
          ⟨0, 0, 0, 0, none⟩).accB : ℚ) / _ : ℚ) = 100
      rw [haccB]
      simpa using acpl_to_accuracy_zero

theorem empty_side_defaults_witness :
    (analyze_job ⟨7, "startfen", ["e2e4"]⟩ (.ok true)
      (fun _ => PlyEvent.scored (.cp 30) (.cp 10))).plies_analyzed = 1 ∧
    (analyze_job ⟨7, "startfen", ["e2e4"]⟩ (.ok true)
      (fun _ => PlyEvent.scored (.cp 30) (.cp 10))).acpl_black = 0 ∧
    (analyze_job ⟨7, "startfen", ["e2e4"]⟩ (.ok true)
      (fun _ => PlyEvent.scored (.cp 30) (.cp 10))).accuracy_black = 100 := by
  have h := empty_side_defaults ⟨7, "startfen", ["e2e4"]⟩ true
    (fun _ => PlyEvent.scored (.cp 30) (.cp 10))
  refine ⟨by decide, (h.2 (by decide)).1, (h.2 (by decide)).2⟩

/-! ## C6 -/

/-- A run over fully scored plies counts every ply for exactly one side and
leaves the note unchanged. -/
theorem analyzeLoop_all_scored (oracle : Nat → PlyEvent) :
    ∀ (moves : List String) (i : Nat) (turn : Bool) (st : LoopState),
      (∀ j, j < moves.length → (oracle (i + j)).isScoredEv = true) →
      (analyzeLoop oracle moves i turn st).nW +
          (analyzeLoop oracle moves i turn st).nB =
        st.nW + st.nB + moves.length ∧
      (analyzeLoop oracle moves i turn st).note = st.note := by
  intro moves
  induction moves with
  | nil => intro i turn st _; simp [analyzeLoop]
  | cons u rest ih =>
    intro i turn st h
    have h0 : (oracle i).isScoredEv = true := by
      simpa using h 0 (by simp)
    rw [analyzeLoop_cons]
    cases hor : oracle i with
    | illegal => rw [hor] at h0; cases h0
    | engineFail k => rw [hor] at h0; cases h0
    | scored b a =>
      have hshift : ∀ j, j < rest.length → (oracle (i + 1 + j)).isScoredEv = true := by
        intro j hj
        have := h (j + 1) (by simp; omega)
        have harith : i + (j + 1) = i + 1 + j := by omega
        rwa [harith] at this
      cases turn with
      | true =>
        simp only [Bool.cond_true, Bool.not_true]
        rcases ih (i + 1) false
          { st with accW := st.accW + plyLoss true b a, nW := st.nW + 1 }
          hshift with ⟨hc, hn⟩
        simp only at hc hn
        constructor
        · rw [hc]; simp; omega
        · exact hn
      | false =>
        simp only [Bool.cond_false, Bool.not_false]
        rcases ih (i + 1) true
          { st with accB := st.accB + plyLoss false b a, nB := st.nB + 1 }
          hshift with ⟨hc, hn⟩
        simp only at hc hn
        constructor
        · rw [hc]; simp; omega
        · exact hn

/-- A run that is interrupted right after its scored leading segment equals
the run restricted to that segment, with the interruption's note added. -/
theorem analyzeLoop_append_fail (oracle : Nat → PlyEvent) :
    ∀ (m1 m2 : List String) (i : Nat) (turn : Bool) (st : LoopState),
      (∀ j, j < m1.length → (oracle (i + j)).isScoredEv = true) →
      (oracle (i + m1.length)).isScoredEv = false →
      m2 ≠ [] →
      ∃ s, analyzeLoop oracle (m1 ++ m2) i turn st =
        { analyzeLoop oracle m1 i turn st with note := some s } := by
  intro m1
  induction m1 with
  | nil =>
    intro m2 i turn st _ hf hm2
    cases m2 with
    | nil => exact absurd rfl hm2
    | cons u rest =>
      simp only [List.nil_append]
      rw [analyzeLoop_cons]
      simp only [analyzeLoop]
      cases hor : oracle i with
      | scored b a =>
        rw [show i + List.length [] = i by simp, hor] at hf
        cases hf
      | illegal =>
        exact ⟨"illegal move " ++ u ++ " at ply " ++ toString (i + 1), rfl⟩
      | engineFail k => exact ⟨failNote k, rfl⟩
  | cons v m1' ih =>
    intro m2 i turn st hsc hf hm2
    have h0 : (oracle i).isScoredEv = true := by
      simpa using hsc 0 (by simp)
    rw [List.cons_append, analyzeLoop_cons, analyzeLoop_cons]
    cases hor : oracle i with
    | illegal => rw [hor] at h0; cases h0
    | engineFail k => rw [hor] at h0; cases h0
    | scored b a =>
      have hshift : ∀ j, j < m1'.length →
          (oracle (i + 1 + j)).isScoredEv = true := by
        intro j hj
        have := hsc (j + 1) (by simp; omega)
        have harith : i + (j + 1) = i + 1 + j := by omega
        rwa [harith] at this
      have hf' : (oracle (i + 1 + m1'.length)).isScoredEv = false := by
        have harith : i + (v :: m1').length = i + 1 + m1'.length := by
          simp; omega
        rwa [harith] at hf
      exact ih m2 (i + 1) (!turn) _ hshift hf' hm2

/-- C6: a job interrupted at ply `k` of an `m`-ply move sequence (`k < m`)
by an engine failure, a protocol error, or an illegal recorded move still
returns a result (the job is not discarded) whose `plies_analyzed` equals
`k`, the number of fully scored plies, whose note is non-null, and whose
per-side ACPL values equal those of the job truncated to the `k` scored
plies. -/
theorem partial_interruption (job : Job) (turn : Bool)
    (oracle : Nat → PlyEvent) (k : Nat) (hk : k < job.uci_moves.length)
    (hsc : ∀ j, j < k → (oracle j).isScoredEv = true)
    (hf : (oracle k).isScoredEv = false) :
    (analyze_job job (.ok turn) oracle).plies_analyzed = k ∧
    (analyze_job job (.ok turn) oracle).notes ≠ none ∧
    (analyze_job job (.ok turn) oracle).acpl_white =
      (analyze_job { job with uci_moves := job.uci_moves.take k }
        (.ok turn) oracle).acpl_white ∧
    (analyze_job job (.ok turn) oracle).acpl_black =
      (analyze_job { job with uci_moves := job.uci_moves.take k }
        (.ok turn) oracle).acpl_black ∧
    (analyze_job { job with uci_moves := job.uci_moves.take k }
      (.ok turn) oracle).plies_analyzed = k := by
  have hm1len : (job.uci_moves.take k).length = k := by
    rw [List.length_take]; omega
  have hm2 : job.uci_moves.drop k ≠ [] := by
    intro hnil
    have := List.length_drop k job.uci_moves
    rw [hnil] at this
    simp at this
    omega
  have hsc1 : ∀ j, j < (job.uci_moves.take k).length →
      (oracle (0 + j)).isScoredEv = true := by
    intro j hj
    rw [hm1len] at hj
    simpa using hsc j hj
  have hf1 : (oracle (0 + (job.uci_moves.take k).length)).isScoredEv = false := by
    rw [hm1len]
    simpa using hf
  obtain ⟨s, hs⟩ := analyzeLoop_append_fail oracle (job.uci_moves.take k)
    (job.uci_moves.drop k) 0 turn ⟨0, 0, 0, 0, none⟩ hsc1 hf1 hm2
  have hloop : analyzeLoop oracle job.uci_moves 0 turn ⟨0, 0, 0, 0, none⟩ =
      { analyzeLoop oracle (job.uci_moves.take k) 0 turn ⟨0, 0, 0, 0, none⟩
        with note := some s } := by
    conv_lhs => rw [← List.take_append_drop k job.uci_moves]
    exact hs
  rcases analyzeLoop_all_scored oracle (job.uci_moves.take k) 0 turn
    ⟨0, 0, 0, 0, none⟩ hsc1 with ⟨hcount, -⟩
  rw [hm1len] at hcount
  refine ⟨?_, ?_, ?_, ?_, ?_⟩
  · show (analyzeLoop oracle job.uci_moves 0 turn ⟨0, 0, 0, 0, none⟩).nW +
        (analyzeLoop oracle job.uci_moves 0 turn ⟨0, 0, 0, 0, none⟩).nB = k
    rw [hloop]
    simpa using hcount
  · show (analyzeLoop oracle job.uci_moves 0 turn ⟨0, 0, 0, 0, none⟩).note ≠ none
    rw [hloop]
    simp
  · show ((analyzeLoop oracle job.uci_moves 0 turn ⟨0, 0, 0, 0, none⟩).accW : ℚ) / _ =
      ((analyzeLoop oracle (job.uci_moves.take k) 0 turn ⟨0, 0, 0, 0, none⟩).accW : ℚ) / _
    rw [hloop]
  · show ((analyzeLoop oracle job.uci_moves 0 turn ⟨0, 0, 0, 0, none⟩).accB : ℚ) / _ =
      ((analyzeLoop oracle (job.uci_moves.take k) 0 turn ⟨0, 0, 0, 0, none⟩).accB : ℚ) / _
    rw [hloop]
  · show (analyzeLoop oracle (job.uci_moves.take k) 0 turn ⟨0, 0, 0, 0, none⟩).nW +
        (analyzeLoop oracle (job.uci_moves.take k) 0 turn ⟨0, 0, 0, 0, none⟩).nB = k
    simpa using hcount

theorem partial_interruption_witness :
    (analyze_job ⟨5, "fen0", ["e2e4", "e7e5"]⟩ (.ok true)
      (fun i => if i = 0 then PlyEvent.scored (.cp 30) (.cp 10)
        else PlyEvent.engineFail .engineTerminated)).plies_analyzed = 1 ∧
    (analyze_job ⟨5, "fen0", ["e2e4", "e7e5"]⟩ (.ok true)
      (fun i => if i = 0 then PlyEvent.scored (.cp 30) (.cp 10)
        else PlyEvent.engineFail .engineTerminated)).notes ≠ none := by
  have h := partial_interruption ⟨5, "fen0", ["e2e4", "e7e5"]⟩ true
    (fun i => if i = 0 then PlyEvent.scored (.cp 30) (.cp 10)
      else PlyEvent.engineFail .engineTerminated) 1
    (by simp)
    (fun j hj => by interval_cases j; rfl)
    rfl
  exact ⟨h.1, h.2.1⟩

/-! ## C1 -/

/-- In a `≤`-sorted list, `find?` returns a minimal element among those
satisfying the predicate. -/
theorem find?_min_of_sorted :
    ∀ {l : List Nat}, l.Sorted (· ≤ ·) → ∀ {p : Nat → Bool} {x : Nat},
      l.find? p = some x → ∀ y ∈ l, p y = true → x ≤ y := by
  intro l
  induction l with
  | nil =>
    intro _ p x hx
    cases hx
  | cons a l ih =>
    intro hs p x hx y hy hpy
    rcases hpa : p a with _ | _
    · rw [List.find?_cons_of_neg _ (by simp [hpa])] at hx
      rcases List.mem_cons.mp hy with rfl | hy
      · rw [hpy] at hpa
        cases hpa
      · exact ih hs.of_cons hx y hy hpy
    · rw [List.find?_cons_of_pos _ hpa] at hx
      injection hx with hx
      subst hx
      rcases List.mem_cons.mp hy with rfl | hy
      · exact le_refl _
      · exact List.rel_of_sorted_cons hs y hy

/-- The head of a `≤`-sorted list is a lower bound of the list. -/
theorem head_min_of_sorted {a : Nat} {l : List Nat}
    (hs : (a :: l).Sorted (· ≤ ·)) : ∀ y ∈ a :: l, a ≤ y := by
  intro y hy
  rcases List.mem_cons.mp hy with rfl | hy
  · exact le_refl _
  · exact List.rel_of_sorted_cons hs y hy

/-- C1: with two or more candidates for the candidate key, the resolver
returns the first candidate in ascending identity order whose stored move
sequence of length `min(10, sequence length)` equals the same-length
probe sequence; if no candidate's stored prefix matches it returns the
lowest-identity candidate; consequently, for two candidates whose stored
prefixes differ within the first `min(10, length)` plies, resolving a
sequence whose prefix equals one candidate's stored prefix never returns
the other candidate's identity. -/
theorem resolver_disambiguation (db : ChessDb) (tags : Tags)
    (uci_moves : List String) (w_id b_id : Nat)
    (hw : resolve_player_id db (tagWhite tags) = some w_id)
    (hb : resolve_player_id db (tagBlack tags) = some b_id)
    (hlen : 2 ≤ (candidateIds db w_id b_id (tagResult tags)
      (parse_pgn_date_to_iso (tagGet tags "Date")) uci_moves.length).length) :
    (∀ gid ∈ candidateIds db w_id b_id (tagResult tags)
        (parse_pgn_date_to_iso (tagGet tags "Date")) uci_moves.length,
      storedLeadMoves db gid (min 10 uci_moves.length) =
          uci_moves.take (min 10 uci_moves.length) →
      (∀ g2 ∈ candidateIds db w_id b_id (tagResult tags)
          (parse_pgn_date_to_iso (tagGet tags "Date")) uci_moves.length,
        storedLeadMoves db g2 (min 10 uci_moves.length) =
            uci_moves.take (min 10 uci_moves.length) → gid ≤ g2) →
      resolve_game_id db tags uci_moves = some gid) ∧
    ((∀ gid ∈ candidateIds db w_id b_id (tagResult tags)
        (parse_pgn_date_to_iso (tagGet tags "Date")) uci_moves.length,
      storedLeadMoves db gid (min 10 uci_moves.length) ≠
          uci_moves.take (min 10 uci_moves.length)) →
      ∃ g0, resolve_game_id db tags uci_moves = some g0 ∧
        g0 ∈ candidateIds db w_id b_id (tagResult tags)
          (parse_pgn_date_to_iso (tagGet tags "Date")) uci_moves.length ∧
        ∀ g ∈ candidateIds db w_id b_id (tagResult tags)
          (parse_pgn_date_to_iso (tagGet tags "Date")) uci_moves.length,
          g0 ≤ g) ∧
    (∀ g1 g2, g1 ∈ candidateIds db w_id b_id (tagResult tags)
        (parse_pgn_date_to_iso (tagGet tags "Date")) uci_moves.length →
      g2 ∈ candidateIds db w_id b_id (tagResult tags)
        (parse_pgn_date_to_iso (tagGet tags "Date")) uci_moves.length →
      storedLeadMoves db g1 (min 10 uci_moves.length) ≠
        storedLeadMoves db g2 (min 10 uci_moves.length) →
      storedLeadMoves db g1 (min 10 uci_moves.length) =
        uci_moves.take (min 10 uci_moves.length) →
      resolve_game_id db tags uci_moves ≠ some g2) := by
  obtain ⟨c0, c1, rest, hc⟩ : ∃ c0 c1 rest,
      candidateIds db w_id b_id (tagResult tags)
        (parse_pgn_date_to_iso (tagGet tags "Date")) uci_moves.length =
        c0 :: c1 :: rest := by
    rcases hcands : candidateIds db w_id b_id (tagResult tags)
      (parse_pgn_date_to_iso (tagGet tags "Date")) uci_moves.length with
      _ | ⟨c0, ctl⟩
    · rw [hcands] at hlen
      simp at hlen
    · rcases ctl with _ | ⟨c1, rest⟩
      · rw [hcands] at hlen
        simp at hlen
      · exact ⟨c0, c1, rest, rfl⟩
  have hsorted : (c0 :: c1 :: rest).Sorted (· ≤ ·) := by
    rw [← hc]
    unfold candidateIds
    exact List.sorted_insertionSort _ _
  have hk : (uci_moves.take 10).length = min 10 uci_moves.length :=
    List.length_take _ _
  have htake : uci_moves.take (min 10 uci_moves.length) = uci_moves.take 10 := by
    rw [List.take_eq_take]
    omega
  have hpiff : ∀ gid,
      ((storedLeadMoves db gid (uci_moves.take 10).length ==
        uci_moves.take 10) = true) ↔
      storedLeadMoves db gid (min 10 uci_moves.length) =
        uci_moves.take (min 10 uci_moves.length) := by
    intro gid
    rw [beq_iff_eq, hk, htake]
  have hres : resolve_game_id db tags uci_moves =
      match (c0 :: c1 :: rest).find? (fun gid =>
        storedLeadMoves db gid (uci_moves.take 10).length ==
          uci_moves.take 10) with
      | some gid => some gid
      | none => some c0 := by
    unfold resolve_game_id
    rw [hw, hb]
    dsimp only
    rw [hc]
  refine ⟨?_, ?_, ?_⟩
  · intro gid hgid hmatch hminimal
    rw [hc] at hgid
    rw [hres]
    rcases hfind : (c0 :: c1 :: rest).find? (fun gid =>
        storedLeadMoves db gid (uci_moves.take 10).length ==
          uci_moves.take 10) with _ | x
    · exfalso
      exact (List.find?_eq_none.mp hfind gid hgid) ((hpiff gid).mpr hmatch)
    · have hxmem : x ∈ c0 :: c1 :: rest := List.mem_of_find?_eq_some hfind
      have hxmatch := (hpiff x).mp
        (by have := List.find?_some hfind; simpa using this)
      have hxmin := find?_min_of_sorted hsorted hfind
      have h1 : x ≤ gid := hxmin gid hgid ((hpiff gid).mpr hmatch)
      have h2 : gid ≤ x := hminimal x (by rw [hc]; exact hxmem) hxmatch
      have : x = gid := le_antisymm h1 h2
      rw [this]
  · intro hnone
    have hfind : (c0 :: c1 :: rest).find? (fun gid =>
        storedLeadMoves db gid (uci_moves.take 10).length ==
          uci_moves.take 10) = none := by
      rw [List.find?_eq_none]
      intro x hx hpx
      exact hnone x (by rw [hc]; exact hx) ((hpiff x).mp hpx)
    refine ⟨c0, ?_, by rw [hc]; exact List.mem_cons_self c0 _, ?_⟩
    · rw [hres, hfind]
    · intro g hg
      rw [hc] at hg
      exact head_min_of_sorted hsorted g hg
  · intro g1 g2 hg1 hg2 hdiff hmatch1 hcontra
    rw [hc] at hg1
    rw [hres] at hcontra
    rcases hfind : (c0 :: c1 :: rest).find? (fun gid =>
        storedLeadMoves db gid (uci_moves.take 10).length ==
          uci_moves.take 10) with _ | x
    · exact (List.find?_eq_none.mp hfind g1 hg1) ((hpiff g1).mpr hmatch1)
    · rw [hfind] at hcontra
      have hxg2 : x = g2 := by
        injection hcontra
      have hxmatch := (hpiff x).mp
        (by have := List.find?_some hfind; simpa using this)
      rw [hxg2] at hxmatch
      rw [hmatch1] at hdiff
      exact hdiff hxmatch.symm

theorem resolver_disambiguation_witness :
    resolve_game_id
      ⟨[⟨1, "A"⟩, ⟨2, "B"⟩],
       [⟨10, 1, 2, "1-0", some "2020-01-01", 2⟩,
        ⟨11, 1, 2, "1-0", some "2020-01-01", 2⟩],
       [⟨10, 1, "e2e4"⟩, ⟨10, 2, "e7e5"⟩, ⟨11, 1, "d2d4"⟩, ⟨11, 2, "d7d5"⟩]⟩
      [("White", "A"), ("Black", "B"), ("Result", "1-0"),
        ("Date", "2020.01.01")]
      ["d2d4", "d7d5"] ≠ some 10 := by
  have h := resolver_disambiguation
    ⟨[⟨1, "A"⟩, ⟨2, "B"⟩],
     [⟨10, 1, 2, "1-0", some "2020-01-01", 2⟩,
      ⟨11, 1, 2, "1-0", some "2020-01-01", 2⟩],
     [⟨10, 1, "e2e4"⟩, ⟨10, 2, "e7e5"⟩, ⟨11, 1, "d2d4"⟩, ⟨11, 2, "d7d5"⟩]⟩
    [("White", "A"), ("Black", "B"), ("Result", "1-0"),
      ("Date", "2020.01.01")]
    ["d2d4", "d7d5"] 1 2 (by decide) (by decide) (by decide)
  exact h.2.2 11 10 (by decide) (by decide) (by decide) (by decide)

end ChessAnalysis
